import Mathlib

/-!
Verification of the key coordination and publication engine of
`@vitalets/global-storage`, together with its HTTP server shell
(`src/server/index.ts`) and server configuration (`src/server/config.ts`).

The coordination engine (Entry Store, Claim Table, Persistent Tier,
Coordination Engine) is not shipped in the sources available here; its
definitions below are modelled from the specification, as marked in the
doc comment of each such definition.  The server shell and configuration
are embedded directly from the TypeScript sources.
-/

namespace GlobalStorage

/-! ## Association list helpers

The Entry Store, Claim Table and Persistent Tier are key-indexed maps; we
embed them as association lists over `String` keys. -/

/-- Look up the first binding of key `k`. -/
def alookup {β : Type} (k : String) : List (String × β) → Option β
  | [] => none
  | (k', v) :: rest => if k' = k then some v else alookup k rest

/-- Replace the first binding of `k` by `v`, or append `(k, v)` if absent. -/
def aset {β : Type} (k : String) (v : β) : List (String × β) → List (String × β)
  | [] => [(k, v)]
  | (k', v') :: rest => if k' = k then (k, v) :: rest else (k', v') :: aset k v rest

/-- Remove every binding of key `k`. -/
def aremove {β : Type} (k : String) : List (String × β) → List (String × β)
  | [] => []
  | (k', v) :: rest => if k' = k then aremove k rest else (k', v) :: aremove k rest

theorem alookup_aset_self {β : Type} (k : String) (v : β) (l : List (String × β)) :
    alookup k (aset k v l) = some v := by
  induction l with
  | nil => simp [aset, alookup]
  | cons p rest ih =>
    obtain ⟨k', v'⟩ := p
    by_cases h : k' = k
    · simp [aset, h, alookup]
    · simp [aset, h, alookup, ih]

theorem alookup_aset_ne {β : Type} (k k' : String) (v : β) (l : List (String × β))
    (h : k ≠ k') : alookup k' (aset k v l) = alookup k' l := by
  induction l with
  | nil => simp [aset, alookup, h]
  | cons p rest ih =>
    obtain ⟨k₀, v₀⟩ := p
    by_cases h₀ : k₀ = k
    · subst h₀
      simp [aset, alookup, h]
    · by_cases h₁ : k₀ = k'
      · subst h₁
        simp [aset, h₀, alookup]
      · simp [aset, h₀, alookup, h₁, ih]

theorem alookup_aremove_self {β : Type} (k : String) (l : List (String × β)) :
    alookup k (aremove k l) = none := by
  induction l with
  | nil => simp [aremove, alookup]
  | cons p rest ih =>
    obtain ⟨k', v'⟩ := p
    by_cases h : k' = k
    · simpa [aremove, h] using ih
    · simpa [aremove, h, alookup] using ih

theorem alookup_aremove_ne {β : Type} (k k' : String) (l : List (String × β))
    (h : k ≠ k') : alookup k' (aremove k l) = alookup k' l := by
  induction l with
  | nil => simp [aremove, alookup]
  | cons p rest ih =>
    obtain ⟨k₀, v₀⟩ := p
    by_cases h₀ : k₀ = k
    · subst h₀
      simp [aremove, alookup, h, ih]
    · by_cases h₁ : k₀ = k'
      · subst h₁
        simp only [aremove, h₀, if_false, alookup, if_pos rfl]
        simp [alookup, aremove, ih]
      · simp [aremove, h₀, alookup, h₁, ih]

theorem keysNodup_aset {β : Type} (k : String) (v : β) (l : List (String × β))
    (h : (l.map Prod.fst).Nodup) : ((aset k v l).map Prod.fst).Nodup := by
  induction l with
  | nil => simp [aset]
  | cons p rest ih =>
    obtain ⟨k₀, v₀⟩ := p
    simp only [List.map_cons, List.nodup_cons] at h
    by_cases h₀ : k₀ = k
    · subst h₀
      simpa [aset] using h
    · simp only [aset, h₀, if_false, List.map_cons, List.nodup_cons]
      refine ⟨?_, ih h.2⟩
      intro hmem
      -- membership in keys of `aset` means the key is `k` or an old key
      have : k₀ = k ∨ k₀ ∈ rest.map Prod.fst := by
        clear ih h
        induction rest with
        | nil => simpa [aset] using hmem
        | cons q tail ihr =>
          obtain ⟨kq, vq⟩ := q
          by_cases hq : kq = k
          · subst hq
            simpa [aset] using hmem
          · simp only [aset, hq, if_false, List.map_cons, List.mem_cons] at hmem
            rcases hmem with h1 | h2
            · exact Or.inr (by simp [h1])
            · rcases ihr h2 with h3 | h4
              · exact Or.inl h3
              · exact Or.inr (by simp [h4])
      rcases this with h1 | h2
      · exact h₀ h1
      · exact h.1 h2

theorem mem_keys_aremove {β : Type} (k k₀ : String) (l : List (String × β))
    (h : k₀ ∈ (aremove k l).map Prod.fst) : k₀ ∈ l.map Prod.fst := by
  induction l with
  | nil => simp [aremove] at h
  | cons p rest ih =>
    obtain ⟨k₁, v₁⟩ := p
    by_cases h₁ : k₁ = k
    · simp only [aremove, h₁, if_true] at h
      exact List.mem_cons_of_mem _ (ih h)
    · simp only [aremove, h₁, if_false, List.map_cons, List.mem_cons] at h
      rcases h with h | h
      · simp [h]
      · exact List.mem_cons_of_mem _ (ih h)

theorem keysNodup_aremove {β : Type} (k : String) (l : List (String × β))
    (h : (l.map Prod.fst).Nodup) : ((aremove k l).map Prod.fst).Nodup := by
  induction l with
  | nil => simp [aremove]
  | cons p rest ih =>
    obtain ⟨k₀, v₀⟩ := p
    simp only [List.map_cons, List.nodup_cons] at h
    by_cases h₀ : k₀ = k
    · simpa [aremove, h₀] using ih h.2
    · simp only [aremove, h₀, if_false, List.map_cons, List.nodup_cons]
      exact ⟨fun hmem => h.1 (mem_keys_aremove k k₀ rest hmem), ih h.2⟩

/-! ## Data model of the coordination engine

Modelled from the spec: the coordination engine's sources are not present in
this repository snapshot (only the HTTP shell and configuration are); every
definition in this section follows §3–§5 of the specification. -/

/-- Modelled from the spec: an Entry of the Entry Store (§3) — current value,
monotone generation counter, the value replaced by the latest publish this
run, persistence flag, TTL in seconds (`-1` = never expires) and the computed
absolute expiry instant for persistent entries with a finite TTL. -/
structure Entry (V : Type) where
  value : V
  generation : Nat
  staleValue : Option V
  persistent : Bool
  ttlSeconds : Int
  expiresAt : Option Nat
deriving DecidableEq, Repr

/-- Modelled from the spec: a Claim of the Claim Table (§3) — opaque owner
token, claim timestamp used for owner-timeout detection, and the FIFO queue
of suspended waiters (identified by opaque requester ids). -/
structure Claim where
  ownerToken : Nat
  claimedAt : Nat
  waiters : List Nat
deriving DecidableEq, Repr

/-- Modelled from the spec: the persisted record layout (§6):
`{key, value, generation, ttlSeconds, expiresAt}`, one durable record per
key (`staleValue` is not persisted, §4.2). -/
structure PersistedRecord (V : Type) where
  value : V
  generation : Nat
  ttlSeconds : Int
  expiresAt : Option Nat
deriving DecidableEq, Repr

/-- Modelled from the spec: the engine state — Entry Store, Claim Table and
Persistent Tier plus the current instant (ms), the supply of fresh claim
tokens and the configured owner timeout (§4.3, §6). -/
structure EngineState (V : Type) where
  entries : List (String × Entry V)
  claims : List (String × Claim)
  persisted : List (String × PersistedRecord V)
  now : Nat
  nextToken : Nat
  ownerTimeoutMs : Nat
deriving DecidableEq, Repr

/-- Modelled from the spec: an entry is valid when it has no expiry instant
(non-persistent, or `ttlSeconds = -1`) or its expiry lies in the future. -/
def Entry.isValid {V : Type} (e : Entry V) (now : Nat) : Bool :=
  match e.expiresAt with
  | none => true
  | some t => decide (now < t)

/-- Modelled from the spec: outcome of `request` (§4.1) — a valid entry's
value, ownership of a fresh claim, or suspension as a waiter. -/
inductive Outcome (V : Type) where
  | found (value : V)
  | owner (claimToken : Nat)
  | suspended
deriving DecidableEq, Repr

/-- Modelled from the spec: the only engine-level publish failure, raised
when no live claim matches the presented token (§4.1, §7). -/
inductive PublishError where
  | staleClaim
deriving DecidableEq, Repr

/-- Modelled from the spec: claim-table step of `request` (§4.1, steps 2–3),
taken when the key has no valid entry: create a claim owned by the caller,
or append the caller to the existing claim's waiter queue. -/
def requestClaim {V : Type} (key : String) (caller : Nat) (s : EngineState V) :
    Outcome V × EngineState V :=
  match alookup key s.claims with
  | none =>
    (Outcome.owner s.nextToken,
     { s with claims := aset key (Claim.mk s.nextToken s.now []) s.claims,
              nextToken := s.nextToken + 1 })
  | some c =>
    (Outcome.suspended,
     { s with claims := aset key { c with waiters := c.waiters ++ [caller] } s.claims })

/-- Modelled from the spec: `request(key)` (§4.1) — a valid entry is returned
immediately; otherwise the claim table decides between ownership and
suspension. -/
def request {V : Type} (key : String) (caller : Nat) (s : EngineState V) :
    Outcome V × EngineState V :=
  match alookup key s.entries with
  | some e =>
    if e.isValid s.now then (Outcome.found e.value, s) else requestClaim key caller s
  | none => requestClaim key caller s

/-- Modelled from the spec: expiry instant installed by a publish — only
persistent entries with a finite TTL get one (§4.1, §4.2). -/
def publishExpiresAt (persistent : Bool) (ttl : Int) (now : Nat) : Option Nat :=
  if persistent ∧ ttl ≠ -1 then some (now + 1000 * ttl.toNat) else none

/-- Modelled from the spec: `publish(key, claimToken, value, options)` (§4.1).
On a live matching claim: the previous value (if any) moves into
`staleValue`, the generation increments, the claim is consumed, all waiters
are resumed (the returned list) and a persistent entry is mirrored to the
Persistent Tier. Without a matching claim the call fails with `StaleClaim`
and the state is returned untouched. -/
def publish {V : Type} (key : String) (token : Nat) (value : V) (persistent : Bool)
    (ttl : Int) (s : EngineState V) : Except PublishError (List Nat) × EngineState V :=
  match alookup key s.claims with
  | none => (Except.error PublishError.staleClaim, s)
  | some c =>
    if c.ownerToken = token then
      let prev := alookup key s.entries
      let e : Entry V :=
        { value := value
          generation := (match prev with | some e₀ => e₀.generation + 1 | none => 1)
          staleValue := prev.map Entry.value
          persistent := persistent
          ttlSeconds := ttl
          expiresAt := publishExpiresAt persistent ttl s.now }
      let record : PersistedRecord V :=
        { value := value, generation := e.generation, ttlSeconds := ttl,
          expiresAt := e.expiresAt }
      (Except.ok c.waiters,
       { s with entries := aset key e s.entries,
                claims := aremove key s.claims,
                persisted := if persistent then aset key record s.persisted else s.persisted })
    else (Except.error PublishError.staleClaim, s)

/-- Modelled from the spec: owner-timeout expiry of a claim (§4.3). When the
timeout has elapsed without a publish: with waiters queued, the head waiter
is promoted to owner of a fresh claim (returned as `(waiter, newToken)`) and
the rest stay suspended; with no waiters the claim is discarded. -/
def expireClaim {V : Type} (key : String) (s : EngineState V) :
    Option (Nat × Nat) × EngineState V :=
  match alookup key s.claims with
  | none => (none, s)
  | some c =>
    if c.claimedAt + s.ownerTimeoutMs ≤ s.now then
      match c.waiters with
      | [] => (none, { s with claims := aremove key s.claims })
      | w :: rest =>
        (some (w, s.nextToken),
         { s with claims := aset key (Claim.mk s.nextToken s.now rest) s.claims,
                  nextToken := s.nextToken + 1 })
    else (none, s)

/-- Modelled from the spec: `getStale(key)` (§4.4) — the overwritten value if
an overwrite happened this run, otherwise the current value; absent when the
key was never populated. -/
def getStale {V : Type} (key : String) (s : EngineState V) : Option V :=
  match alookup key s.entries with
  | none => none
  | some e => some (e.staleValue.getD e.value)

/-- Modelled from the spec: `getStaleList(prefix)` (§4.4) — `getStale` applied
to every known key starting with the given prefix, keeping only keys with a
non-absent stale value. -/
def getStaleList {V : Type} (pre : String) (s : EngineState V) : List (String × V) :=
  s.entries.filterMap
    (fun p => if pre.isPrefixOf p.1 then (getStale p.1 s).map (fun v => (p.1, v)) else none)

/-- Modelled from the spec: a persisted record is expired at an instant when
its TTL is finite and its expiry has passed (§4.2). -/
def recordExpired {V : Type} (r : PersistedRecord V) (now : Nat) : Bool :=
  r.ttlSeconds ≠ -1 && (match r.expiresAt with | some t => decide (t ≤ now) | none => false)

/-- Modelled from the spec: the in-memory entry rebuilt from a persisted
record at startup — `staleValue` starts empty (it is not persisted, §4.2)
and a `ttlSeconds = -1` record never expires (§3). -/
def recordToEntry {V : Type} (r : PersistedRecord V) : Entry V :=
  { value := r.value, generation := r.generation, staleValue := none, persistent := true,
    ttlSeconds := r.ttlSeconds,
    expiresAt := if r.ttlSeconds = -1 then none else r.expiresAt }

/-- Modelled from the spec: coordinator startup load (§4.2) — all persisted
records are read and those already expired are discarded, never surfacing to
requesters. -/
def loadEntries {V : Type} (now : Nat) :
    List (String × PersistedRecord V) → List (String × Entry V)
  | [] => []
  | (k, r) :: rest =>
    if recordExpired r now then loadEntries now rest
    else (k, recordToEntry r) :: loadEntries now rest

/-- Modelled from the spec: the engine state right after coordinator startup
(§4.2): entries loaded from the Persistent Tier, no claims. -/
def initState {V : Type} (timeoutMs startNow : Nat)
    (records : List (String × PersistedRecord V)) : EngineState V :=
  { entries := loadEntries startNow records
    claims := []
    persisted := records
    now := startNow
    nextToken := 0
    ownerTimeoutMs := timeoutMs }

/-- Advance the engine clock monotonically to (at least) the given instant. -/
def tick {V : Type} (now : Nat) (s : EngineState V) : EngineState V :=
  { s with now := max s.now now }

/-- Modelled from the spec: the operations that mutate engine state — request,
publish, owner-timeout expiry — plus read-only stale retrieval; each carries
the instant at which it is executed. -/
inductive Op (V : Type) where
  | request (now : Nat) (key : String) (caller : Nat)
  | publish (now : Nat) (key : String) (token : Nat) (value : V) (persistent : Bool) (ttl : Int)
  | expire (now : Nat) (key : String)
  | getStale (now : Nat) (key : String)

/-- State transition of a single engine operation. -/
def applyOp {V : Type} : Op V → EngineState V → EngineState V
  | Op.request now key caller, s => (request key caller (tick now s)).2
  | Op.publish now key tok v p t, s => (publish key tok v p t (tick now s)).2
  | Op.expire now key, s => (expireClaim key (tick now s)).2
  | Op.getStale now _key, s => tick now s

/-- Run a sequence of engine operations from a state. -/
def runOps {V : Type} (ops : List (Op V)) (s : EngineState V) : EngineState V :=
  ops.foldl (fun s op => applyOp op s) s

/-- States reachable from some coordinator startup by engine operations. -/
def Reachable {V : Type} (s : EngineState V) : Prop :=
  ∃ timeoutMs startNow records ops, s = runOps ops (initState timeoutMs startNow records)

/-! ## Claim-table invariants (§3) -/

/-- Each key has at most one claim: the claim table's keys are distinct. -/
def claimsNodup {V : Type} (s : EngineState V) : Prop :=
  (s.claims.map Prod.fst).Nodup

/-- The key currently has a valid (usable) entry in the Entry Store. -/
def HasUsableEntry {V : Type} (s : EngineState V) (k : String) : Prop :=
  ∃ e, alookup k s.entries = some e ∧ e.isValid s.now = true

/-- Claim/entry mutual exclusion together with claim uniqueness (§3). -/
def Inv {V : Type} (s : EngineState V) : Prop :=
  claimsNodup s ∧ ∀ k c, alookup k s.claims = some c → ¬ HasUsableEntry s k

theorem isValid_mono {V : Type} (e : Entry V) (n n' : Nat) (h : n ≤ n')
    (hv : e.isValid n' = true) : e.isValid n = true := by
  unfold Entry.isValid at hv ⊢
  match he : e.expiresAt with
  | none => rfl
  | some t =>
    rw [he] at hv
    simp only [decide_eq_true_eq] at hv ⊢
    omega

theorem inv_tick {V : Type} (now : Nat) (s : EngineState V) (h : Inv s) :
    Inv (tick now s) := by
  refine ⟨h.1, fun k c hc hu => h.2 k c hc ?_⟩
  obtain ⟨e, he, hv⟩ := hu
  exact ⟨e, he, isValid_mono e s.now _ (Nat.le_max_left _ _) hv⟩

theorem inv_requestClaim {V : Type} (key : String) (caller : Nat) (s : EngineState V)
    (h : Inv s) (hkey : ¬ HasUsableEntry s key) :
    Inv (requestClaim key caller s).2 := by
  unfold requestClaim
  match hc : alookup key s.claims with
  | none =>
    refine ⟨keysNodup_aset key _ s.claims h.1, fun k c hk => ?_⟩
    by_cases hkk : key = k
    · subst hkk
      intro hu
      exact hkey hu
    · rw [alookup_aset_ne key k _ s.claims hkk] at hk
      exact h.2 k c hk
  | some c₀ =>
    refine ⟨keysNodup_aset key _ s.claims h.1, fun k c hk => ?_⟩
    by_cases hkk : key = k
    · subst hkk
      intro hu
      exact hkey hu
    · rw [alookup_aset_ne key k _ s.claims hkk] at hk
      exact h.2 k c hk

theorem not_usable_of_invalid {V : Type} (s : EngineState V) (key : String)
    (h : ∀ e, alookup key s.entries = some e → e.isValid s.now = false) :
    ¬ HasUsableEntry s key := by
  rintro ⟨e, he, hv⟩
  rw [h e he] at hv
  exact Bool.false_ne_true hv

theorem inv_request {V : Type} (key : String) (caller : Nat) (s : EngineState V)
    (h : Inv s) : Inv (request key caller s).2 := by
  unfold request
  match he : alookup key s.entries with
  | some e =>
    by_cases hv : e.isValid s.now = true
    · simp only [hv, if_true]
      exact h
    · simp only [Bool.not_eq_true] at hv
      simp only [hv, Bool.false_eq_true, if_false]
      refine inv_requestClaim key caller s h (not_usable_of_invalid s key ?_)
      intro e' he'
      rw [he] at he'
      cases he'
      exact hv
  | none =>
    refine inv_requestClaim key caller s h (not_usable_of_invalid s key ?_)
    intro e' he'
    rw [he] at he'
    cases he'

theorem inv_publish {V : Type} (key : String) (token : Nat) (value : V)
    (persistent : Bool) (ttl : Int) (s : EngineState V) (h : Inv s) :
    Inv (publish key token value persistent ttl s).2 := by
  unfold publish
  match hc : alookup key s.claims with
  | none => exact h
  | some c =>
    by_cases ht : c.ownerToken = token
    · simp only [ht, if_true]
      refine ⟨keysNodup_aremove key s.claims h.1, fun k c' hk => ?_⟩
      by_cases hkk : key = k
      · subst hkk
        rw [alookup_aremove_self key s.claims] at hk
        cases hk
      · rw [alookup_aremove_ne key k s.claims hkk] at hk
        intro hu
        obtain ⟨e, he, hv⟩ := hu
        rw [alookup_aset_ne key k _ s.entries hkk] at he
        exact h.2 k c' hk ⟨e, he, hv⟩
    · simp only [ht, if_false]
      exact h

theorem inv_expireClaim {V : Type} (key : String) (s : EngineState V) (h : Inv s) :
    Inv (expireClaim key s).2 := by
  unfold expireClaim
  match hc : alookup key s.claims with
  | none => exact h
  | some c =>
    by_cases helapsed : c.claimedAt + s.ownerTimeoutMs ≤ s.now
    · simp only [helapsed, if_true]
      match hw : c.waiters with
      | [] =>
        refine ⟨keysNodup_aremove key s.claims h.1, fun k c' hk => ?_⟩
        by_cases hkk : key = k
        · subst hkk
          rw [alookup_aremove_self key s.claims] at hk
          cases hk
        · rw [alookup_aremove_ne key k s.claims hkk] at hk
          exact h.2 k c' hk
      | w :: rest =>
        refine ⟨keysNodup_aset key _ s.claims h.1, fun k c' hk => ?_⟩
        by_cases hkk : key = k
        · subst hkk
          exact h.2 key c hc
        · rw [alookup_aset_ne key k _ s.claims hkk] at hk
          exact h.2 k c' hk
    · simp only [helapsed, if_false]
      exact h

theorem inv_applyOp {V : Type} (op : Op V) (s : EngineState V) (h : Inv s) :
    Inv (applyOp op s) := by
  cases op with
  | request now key caller => exact inv_request key caller _ (inv_tick now s h)
  | publish now key tok v p t => exact inv_publish key tok v p t _ (inv_tick now s h)
  | expire now key => exact inv_expireClaim key _ (inv_tick now s h)
  | getStale now key => exact inv_tick now s h

theorem inv_initState {V : Type} (timeoutMs startNow : Nat)
    (records : List (String × PersistedRecord V)) :
    Inv (initState timeoutMs startNow records) := by
  constructor
  · simp [claimsNodup, initState]
  · intro k c hk
    simp [initState, alookup] at hk

theorem inv_runOps {V : Type} (ops : List (Op V)) (s : EngineState V) (h : Inv s) :
    Inv (runOps ops s) := by
  induction ops generalizing s with
  | nil => exact h
  | cons op rest ih => exact ih (applyOp op s) (inv_applyOp op s h)

theorem reachable_inv {V : Type} (s : EngineState V) (h : Reachable s) : Inv s := by
  obtain ⟨timeoutMs, startNow, records, ops, rfl⟩ := h
  exact inv_runOps ops _ (inv_initState timeoutMs startNow records)

/-! ## Request Façade: the HTTP server shell (`src/server/index.ts`) -/

/-- The four routers mounted by the `GlobalStorageServer` constructor
(`src/server/index.ts`): `routes/get`, `routes/set`, `routes/get-stale`,
`routes/get-stale-list`. -/
inductive Route where
  | get
  | set
  | getStale
  | getStaleList
deriving DecidableEq, Repr

/-- The routes in constructor mounting order (`src/server/index.ts`,
`this.app.use` calls), before the trailing error handler. -/
def serverRoutes : List Route :=
  [Route.get, Route.set, Route.getStale, Route.getStaleList]

/-- Modelled from the spec: the inputs of the four façade operations (§6
table) — the route files themselves are not in this snapshot. -/
inductive RouteRequest (V : Type) where
  | get (key : String) (caller : Nat)
  | set (key : String) (ownerToken : Nat) (value : V) (persistent : Bool) (ttlSeconds : Int)
  | getStale (key : String)
  | getStaleList (pre : String)

/-- Modelled from the spec: the outputs of the four façade operations (§6
table). -/
inductive RouteResponse (V : Type) where
  | fetched (o : Outcome V)
  | published (r : Except PublishError (List Nat))
  | stale (v : Option V)
  | staleList (l : List (String × V))

/-- The route serving a given façade request. -/
def routeOf {V : Type} : RouteRequest V → Route
  | RouteRequest.get _ _ => Route.get
  | RouteRequest.set _ _ _ _ _ => Route.set
  | RouteRequest.getStale _ => Route.getStale
  | RouteRequest.getStaleList _ => Route.getStaleList

/-- Modelled from the spec: each façade route delegates to the Coordination
Engine (§2, §6): fetch value → `request`, publish value → `publish`, fetch
stale value → `getStale`, list stale values → `getStaleList`. -/
def handleRoute {V : Type} : RouteRequest V → EngineState V → RouteResponse V × EngineState V
  | RouteRequest.get key caller, s =>
    (RouteResponse.fetched (request key caller s).1, (request key caller s).2)
  | RouteRequest.set key tok v p t, s =>
    (RouteResponse.published (publish key tok v p t s).1, (publish key tok v p t s).2)
  | RouteRequest.getStale key, s => (RouteResponse.stale (getStale key s), s)
  | RouteRequest.getStaleList pre, s => (RouteResponse.staleList (getStaleList pre s), s)

/-! ## Error handling (§7, `src/server/error-handler` mounted at
`src/server/index.ts` line 34) -/

/-- Modelled from the spec: the engine-level error taxonomy (§7). -/
inductive EngineError where
  | staleClaim
  | malformedKey
  | serializationFailure
  | persistedRecordCorrupt
deriving DecidableEq, Repr

/-- Modelled from the spec: the error-handling middleware mounted after all
routes (`src/server/index.ts` line 34, `error-handler` module): every typed
engine error is mapped to a transport status code and message. -/
def errorHandler (e : EngineError) : Nat × String :=
  match e with
  | EngineError.staleClaim => (409, "StaleClaim")
  | EngineError.malformedKey => (400, "MalformedKey")
  | EngineError.serializationFailure => (400, "SerializationFailure")
  | EngineError.persistedRecordCorrupt => (500, "PersistedRecordCorrupt")

/-- Modelled from the spec: a transport-level response of the façade — a
success body or an error response produced by the error handler; the type
has no uncaught-fault alternative (§7 propagation policy). -/
inductive TransportResponse (V : Type) where
  | ok (body : RouteResponse V)
  | error (status : Nat) (message : String)

/-- Modelled from the spec: façade propagation policy (§7) — an engine
outcome is mapped totally into `TransportResponse`: success bodies pass
through and every typed engine error goes through `errorHandler`. -/
def facadeRespond {V : Type} : Except EngineError (RouteResponse V) → TransportResponse V
  | Except.ok body => TransportResponse.ok body
  | Except.error e => TransportResponse.error (errorHandler e).1 (errorHandler e).2

/-! ## Server configuration (`src/server/config.ts`) -/

/-- Field names of `GlobalStorageServerConfig` (`src/server/config.ts`):
`port` and `basePath` are the only options the server configuration
accepts. -/
def serverConfigKeys : List String := ["port", "basePath"]

/-- The `GlobalStorageServerConfig` type (`src/server/config.ts`): optional
`port` and `basePath`; a field that is missing or explicitly set to
`undefined` is `none`. -/
structure GlobalStorageServerConfig where
  port : Option Nat
  basePath : Option String
deriving DecidableEq, Repr

/-- The `defaults` object (`src/server/config.ts`): `basePath` defaults to
`".global-storage"`. -/
def defaultBasePath : String := ".global-storage"

/-- The resolved configuration (`GlobalStorageServerConfigResolved`): after
`Object.assign({}, defaults, removeUndefined(providedConfig))` a `basePath`
is always present. -/
structure GlobalStorageServerConfigResolved where
  port : Option Nat
  basePath : String
deriving DecidableEq, Repr

/-- `buildResolvedConfig` (`src/server/config.ts`): per-field meaning of
`Object.assign({}, defaults, removeUndefined(providedConfig))` — an
`undefined` provided field is stripped by `removeUndefined`, so the default
survives; a defined provided field overrides the default. -/
def buildResolvedConfig (provided : GlobalStorageServerConfig) :
    GlobalStorageServerConfigResolved :=
  { port := provided.port
    basePath := provided.basePath.getD defaultBasePath }

/-- The full effect of the `buildResolvedConfig` call: `Object.assign` writes
only into its fresh `{}` target, so the call returns the resolved
configuration alongside the provided object, which it leaves as it was. -/
def buildResolvedConfigCall (provided : GlobalStorageServerConfig) :
    GlobalStorageServerConfigResolved × GlobalStorageServerConfig :=
  (buildResolvedConfig provided, provided)

/-! ## Claim theorems: façade, error handling, configuration -/

/-- C7: the Request Façade mounts exactly four operations at the HTTP
boundary — fetch value, publish value, fetch stale value and list stale
values by prefix — and each delegates to the corresponding Coordination
Engine operation. -/
theorem C7_facade_routes {V : Type} (s : EngineState V) (key pre : String)
    (caller tok : Nat) (v : V) (p : Bool) (t : Int) :
    serverRoutes = [Route.get, Route.set, Route.getStale, Route.getStaleList] ∧
    serverRoutes.length = 4 ∧ serverRoutes.Nodup ∧ (∀ r : Route, r ∈ serverRoutes) ∧
    handleRoute (RouteRequest.get key caller) s =
      (RouteResponse.fetched (request key caller s).1, (request key caller s).2) ∧
    handleRoute (RouteRequest.set key tok v p t) s =
      (RouteResponse.published (publish key tok v p t s).1, (publish key tok v p t s).2) ∧
    handleRoute (RouteRequest.getStale key) s = (RouteResponse.stale (getStale key s), s) ∧
    handleRoute (RouteRequest.getStaleList pre) s =
      (RouteResponse.staleList (getStaleList pre s), s) := by
  refine ⟨rfl, rfl, by decide, fun r => by cases r <;> decide, rfl, rfl, rfl, rfl⟩

/-- C8: every engine-level error is a typed outcome mapped by the façade
error handler to a transport response, and the façade mapping into
`TransportResponse` is total, so no engine error propagates as an uncaught
fault. -/
theorem C8_error_propagation {V : Type} (x : Except EngineError (RouteResponse V)) :
    (∀ e : EngineError,
      (facadeRespond (Except.error e) : TransportResponse V) =
        TransportResponse.error (errorHandler e).1 (errorHandler e).2) ∧
    ((∃ b, facadeRespond x = TransportResponse.ok b) ∨
     (∃ n m, facadeRespond x = TransportResponse.error n m)) := by
  refine ⟨fun e => rfl, ?_⟩
  cases x with
  | ok b => exact Or.inl ⟨b, rfl⟩
  | error e => exact Or.inr ⟨(errorHandler e).1, (errorHandler e).2, rfl⟩

/-- C9 counterexample: the claim fails on the code — the server configuration
type accepts only `port` and `basePath`, so `ownerTimeoutMs` and `disabled`
are not among its options. -/
theorem C9_config_counterexample :
    ¬ ("ownerTimeoutMs" ∈ serverConfigKeys ∧ "disabled" ∈ serverConfigKeys ∧
       "basePath" ∈ serverConfigKeys) := by
  decide

/-- C9 amended: of the spec's configuration surface only `basePath` is
accepted by the server configuration (alongside `port`); `ownerTimeoutMs`
and `disabled` are not fields of `GlobalStorageServerConfig`. -/
theorem C9_config_surface :
    "basePath" ∈ serverConfigKeys ∧ "port" ∈ serverConfigKeys ∧
    "ownerTimeoutMs" ∉ serverConfigKeys ∧ "disabled" ∉ serverConfigKeys := by
  decide

/-- C10: resolution yields the provided `basePath` when it is defined and
`".global-storage"` otherwise; an undefined provided field does not override
the default, and the resolving call returns the provided configuration
untouched. -/
theorem C10_config_resolution (provided : GlobalStorageServerConfig) :
    (∀ b, provided.basePath = some b → (buildResolvedConfig provided).basePath = b) ∧
    (provided.basePath = none →
      (buildResolvedConfig provided).basePath = ".global-storage") ∧
    (buildResolvedConfig provided).port = provided.port ∧
    (buildResolvedConfigCall provided).2 = provided := by
  refine ⟨?_, ?_, rfl, rfl⟩
  · intro b hb
    simp [buildResolvedConfig, hb]
  · intro hb
    simp [buildResolvedConfig, hb, defaultBasePath]

/-- C10 witness: a defined `basePath` survives resolution and an undefined
one falls back to the default. -/
theorem C10_config_resolution_witness :
    (buildResolvedConfig (GlobalStorageServerConfig.mk none (some "custom"))).basePath
      = "custom" ∧
    (buildResolvedConfig (GlobalStorageServerConfig.mk (some 3000) none)).basePath
      = ".global-storage" :=
  ⟨(C10_config_resolution (GlobalStorageServerConfig.mk none (some "custom"))).1 "custom" rfl,
   (C10_config_resolution (GlobalStorageServerConfig.mk (some 3000) none)).2.1 rfl⟩

/-! ## Claim theorems: request/publish lifecycle -/

/-- C1: `request` returns a valid entry's value immediately with no state
change; with no valid entry and no claim it creates a claim owned by the
caller and returns the fresh token immediately; with an existing claim it
appends the caller to the FIFO waiter queue and suspends; a publish by the
owner resumes all current waiters with the value, and an elapsed owner
timeout promotes the head waiter to owner of a fresh claim, leaving the
remaining waiters suspended on it. -/
theorem C1_request_lifecycle {V : Type} (s : EngineState V) (key : String) (caller : Nat) :
    (∀ e, alookup key s.entries = some e → e.isValid s.now = true →
      request key caller s = (Outcome.found e.value, s)) ∧
    ((∀ e, alookup key s.entries = some e → e.isValid s.now = false) →
      alookup key s.claims = none →
      request key caller s =
        (Outcome.owner s.nextToken,
         { s with claims := aset key (Claim.mk s.nextToken s.now []) s.claims,
                  nextToken := s.nextToken + 1 })) ∧
    (∀ c, (∀ e, alookup key s.entries = some e → e.isValid s.now = false) →
      alookup key s.claims = some c →
      request key caller s =
        (Outcome.suspended,
         { s with claims := aset key (Claim.mk c.ownerToken c.claimedAt (c.waiters ++ [caller])) s.claims })) ∧
    (∀ c v p t, alookup key s.claims = some c →
      (publish key c.ownerToken v p t s).1 = Except.ok c.waiters) ∧
    (∀ c w rest, alookup key s.claims = some c →
      c.claimedAt + s.ownerTimeoutMs ≤ s.now → c.waiters = w :: rest →
      expireClaim key s =
        (some (w, s.nextToken),
         { s with claims := aset key (Claim.mk s.nextToken s.now rest) s.claims,
                  nextToken := s.nextToken + 1 })) := by
  refine ⟨?_, ?_, ?_, ?_, ?_⟩
  · intro e he hv
    simp [request, he, hv]
  · intro hinv hc
    match he : alookup key s.entries with
    | some e =>
      have hv := hinv e he
      simp [request, he, hv, requestClaim, hc]
    | none => simp [request, he, requestClaim, hc]
  · intro c hinv hc
    match he : alookup key s.entries with
    | some e =>
      have hv := hinv e he
      simp [request, he, hv, requestClaim, hc]
    | none => simp [request, he, requestClaim, hc]
  · intro c v p t hc
    simp [publish, hc]
  · intro c w rest hc helapsed hw
    simp [expireClaim, hc, helapsed, hw]

/-- Concrete witness state: one valid non-persistent entry for `"k"`. -/
def entryStateW : EngineState Nat :=
  { entries := [("k", Entry.mk 42 1 none false 0 none)], claims := [], persisted := [],
    now := 0, nextToken := 0, ownerTimeoutMs := 1000 }

/-- Concrete witness state: nothing known about any key. -/
def emptyStateW : EngineState Nat :=
  { entries := [], claims := [], persisted := [], now := 0, nextToken := 0,
    ownerTimeoutMs := 1000 }

/-- Concrete witness state: an elapsed claim on `"k"` with two waiters. -/
def claimStateW : EngineState Nat :=
  { entries := [], claims := [("k", Claim.mk 0 0 [5, 6])], persisted := [],
    now := 2000, nextToken := 1, ownerTimeoutMs := 1000 }

/-- C1 witness: the five request/publish/expiry behaviours at concrete
states. -/
theorem C1_request_lifecycle_witness :
    request "k" 7 entryStateW = (Outcome.found 42, entryStateW) ∧
    request "k" 7 emptyStateW =
      (Outcome.owner 0,
       { emptyStateW with claims := aset "k" (Claim.mk 0 0 []) emptyStateW.claims,
                          nextToken := 1 }) ∧
    request "k" 7 claimStateW =
      (Outcome.suspended,
       { claimStateW with claims := aset "k" (Claim.mk 0 0 [5, 6, 7]) claimStateW.claims }) ∧
    (publish "k" 0 99 false 0 claimStateW).1 = Except.ok [5, 6] ∧
    expireClaim "k" claimStateW =
      (some (5, 1),
       { claimStateW with claims := aset "k" (Claim.mk 1 2000 [6]) claimStateW.claims,
                          nextToken := 2 }) := by
  refine ⟨?_, ?_, ?_, ?_, ?_⟩
  · exact (C1_request_lifecycle entryStateW "k" 7).1 (Entry.mk 42 1 none false 0 none) rfl rfl
  · exact (C1_request_lifecycle emptyStateW "k" 7).2.1
      (fun e he => by simp [emptyStateW, alookup] at he) rfl
  · exact (C1_request_lifecycle claimStateW "k" 7).2.2.1 (Claim.mk 0 0 [5, 6])
      (fun e he => by simp [claimStateW, alookup] at he) rfl
  · exact (C1_request_lifecycle claimStateW "k" 7).2.2.2.1 (Claim.mk 0 0 [5, 6]) 99 false 0 rfl
  · exact (C1_request_lifecycle claimStateW "k" 7).2.2.2.2 (Claim.mk 0 0 [5, 6]) 5 [6] rfl
      (by decide) rfl

/-- C2: a publish without a live matching claim — no claim at all, a claim
under a different token, or a token already consumed by a first publish —
fails with `StaleClaim` and returns the state (Entry Store, Claim Table and
Persistent Tier) untouched; in particular at most one publish per claim
lifecycle is honored. -/
theorem publish_none_eq {V : Type} (s : EngineState V) (key : String) (token : Nat)
    (v : V) (p : Bool) (t : Int) (hc : alookup key s.claims = none) :
    publish key token v p t s = (Except.error PublishError.staleClaim, s) := by
  simp [publish, hc]

theorem C2_publish_stale_claim {V : Type} (s : EngineState V) (key : String)
    (token : Nat) (v : V) (p : Bool) (t : Int) :
    (alookup key s.claims = none →
      publish key token v p t s = (Except.error PublishError.staleClaim, s)) ∧
    (∀ c, alookup key s.claims = some c → c.ownerToken ≠ token →
      publish key token v p t s = (Except.error PublishError.staleClaim, s)) ∧
    (∀ c v' p' t', alookup key s.claims = some c → c.ownerToken = token →
      publish key token v' p' t' (publish key token v p t s).2 =
        (Except.error PublishError.staleClaim, (publish key token v p t s).2)) := by
  refine ⟨?_, ?_, ?_⟩
  · intro hc
    exact publish_none_eq s key token v p t hc
  · intro c hc hne
    simp [publish, hc, hne]
  · intro c v' p' t' hc heq
    have h2 : alookup key (publish key token v p t s).2.claims = none := by
      simp [publish, hc, heq, alookup_aremove_self]
    exact publish_none_eq _ key token v' p' t' h2

/-- C2 witness: the three `StaleClaim` no-op behaviours at concrete states —
missing claim, wrong token, and an already-consumed token. -/
theorem C2_publish_stale_claim_witness :
    publish "k" 3 99 false 0 emptyStateW
      = (Except.error PublishError.staleClaim, emptyStateW) ∧
    publish "k" 3 99 false 0 claimStateW
      = (Except.error PublishError.staleClaim, claimStateW) ∧
    publish "k" 0 98 false 0 (publish "k" 0 99 false 0 claimStateW).2 =
      (Except.error PublishError.staleClaim, (publish "k" 0 99 false 0 claimStateW).2) := by
  refine ⟨?_, ?_, ?_⟩
  · exact (C2_publish_stale_claim emptyStateW "k" 3 99 false 0).1 rfl
  · exact (C2_publish_stale_claim claimStateW "k" 3 99 false 0).2.1
      (Claim.mk 0 0 [5, 6]) rfl (by decide)
  · exact (C2_publish_stale_claim claimStateW "k" 0 99 false 0).2.2
      (Claim.mk 0 0 [5, 6]) 98 false 0 rfl rfl

/-! ## Claim theorems: invariants, timeout, stale tracking, TTL -/

/-- C3 counterexample: the claim's "iff" fails on a reachable state — right
after a startup with nothing persisted, a key has no usable entry and yet no
claim exists for it. -/
theorem C3_claim_iff_counterexample :
    ¬ (∀ (s : EngineState Nat), Reachable s →
        ∀ k, (∃ c, alookup k s.claims = some c) ↔ ¬ HasUsableEntry s k) := by
  intro h
  have hreach : Reachable (initState 1000 0 ([] : List (String × PersistedRecord Nat))) :=
    ⟨1000, 0, [], [], rfl⟩
  have hnouse :
      ¬ HasUsableEntry (initState 1000 0 ([] : List (String × PersistedRecord Nat))) "k" := by
    rintro ⟨e, he, hv⟩
    simp [initState, loadEntries, alookup] at he
  obtain ⟨c, hc⟩ := (h _ hreach "k").2 hnouse
  simp [initState, alookup] at hc

/-- C3 amended: in every reachable engine state each key has at most one
claim, and a claim for a key excludes a usable entry for that key (claim and
usable value are mutually exclusive); the converse direction of the spec's
"iff" — a claim whenever no usable entry exists — does not hold for keys
never requested. -/
theorem C3_claim_entry_exclusion {V : Type} (s : EngineState V) (h : Reachable s) :
    claimsNodup s ∧ ∀ k c, alookup k s.claims = some c → ¬ HasUsableEntry s k :=
  reachable_inv s h

/-- Concrete reachable state: two requests race on `"k"`, the owner
publishes, then a third requester claims `"j"`. -/
def reachedStateW : EngineState Nat :=
  runOps [Op.request 0 "k" 1, Op.request 10 "k" 2, Op.publish 20 "k" 0 42 false 0,
          Op.request 30 "j" 3]
    (initState 1000 0 [])

/-- C3 witness: the amended invariant evaluated at a concrete reachable
state. -/
theorem C3_claim_entry_exclusion_witness :
    claimsNodup reachedStateW ∧
    ∀ k c, alookup k reachedStateW.claims = some c → ¬ HasUsableEntry reachedStateW k :=
  C3_claim_entry_exclusion reachedStateW ⟨1000, 0, [], _, rfl⟩

/-- C4: an elapsed owner timeout with waiters queued transfers ownership to
exactly the FIFO head waiter under a fresh claim — the remaining waiters
stay queued — after which a publish under the deposed owner's token fails
with `StaleClaim`; with an empty waiter queue the claim is discarded and the
next requester becomes owner. -/
theorem C4_timeout_transfer {V : Type} (s : EngineState V) (key : String) (c : Claim)
    (hc : alookup key s.claims = some c)
    (helapsed : c.claimedAt + s.ownerTimeoutMs ≤ s.now) :
    (∀ w rest, c.waiters = w :: rest →
      expireClaim key s =
        (some (w, s.nextToken),
         { s with claims := aset key (Claim.mk s.nextToken s.now rest) s.claims,
                  nextToken := s.nextToken + 1 }) ∧
      (c.ownerToken ≠ s.nextToken → ∀ v p t,
        publish key c.ownerToken v p t (expireClaim key s).2 =
          (Except.error PublishError.staleClaim, (expireClaim key s).2))) ∧
    (c.waiters = [] →
      expireClaim key s = (none, { s with claims := aremove key s.claims }) ∧
      ((∀ e, alookup key s.entries = some e → e.isValid s.now = false) → ∀ caller,
        (request key caller (expireClaim key s).2).1 = Outcome.owner s.nextToken)) := by
  constructor
  · intro w rest hw
    have hexp : expireClaim key s =
        (some (w, s.nextToken),
         { s with claims := aset key (Claim.mk s.nextToken s.now rest) s.claims,
                  nextToken := s.nextToken + 1 }) := by
      simp [expireClaim, hc, helapsed, hw]
    refine ⟨hexp, ?_⟩
    intro hne v p t
    have hne' : s.nextToken ≠ c.ownerToken := Ne.symm hne
    rw [hexp]
    have hl : alookup key (aset key (Claim.mk s.nextToken s.now rest) s.claims) =
        some (Claim.mk s.nextToken s.now rest) := alookup_aset_self _ _ _
    simp [publish, hl, hne']
  · intro hw
    have hexp : expireClaim key s = (none, { s with claims := aremove key s.claims }) := by
      simp [expireClaim, hc, helapsed, hw]
    refine ⟨hexp, ?_⟩
    intro hinv caller
    rw [hexp]
    have hcl : alookup key (aremove key s.claims) = none := alookup_aremove_self _ _
    match he : alookup key s.entries with
    | some e =>
      have hv := hinv e he
      simp [request, he, hv, requestClaim, hcl]
    | none => simp [request, he, requestClaim, hcl]

/-- Concrete witness state: an elapsed claim on `"k"` with no waiters. -/
def claimStateEmptyW : EngineState Nat :=
  { entries := [], claims := [("k", Claim.mk 0 0 [])], persisted := [],
    now := 2000, nextToken := 1, ownerTimeoutMs := 1000 }

/-- C4 witness: head-waiter promotion plus stale old token at one concrete
state, claim discard plus fresh ownership at another. -/
theorem C4_timeout_transfer_witness :
    expireClaim "k" claimStateW =
      (some (5, 1),
       { claimStateW with claims := aset "k" (Claim.mk 1 2000 [6]) claimStateW.claims,
                          nextToken := 2 }) ∧
    publish "k" 0 77 false 0 (expireClaim "k" claimStateW).2 =
      (Except.error PublishError.staleClaim, (expireClaim "k" claimStateW).2) ∧
    expireClaim "k" claimStateEmptyW =
      (none, { claimStateEmptyW with claims := aremove "k" claimStateEmptyW.claims }) ∧
    (request "k" 9 (expireClaim "k" claimStateEmptyW).2).1 = Outcome.owner 1 := by
  have h1 := C4_timeout_transfer claimStateW "k" (Claim.mk 0 0 [5, 6]) rfl (by decide)
  have h2 := C4_timeout_transfer claimStateEmptyW "k" (Claim.mk 0 0 []) rfl (by decide)
  exact ⟨(h1.1 5 [6] rfl).1, (h1.1 5 [6] rfl).2 (by decide) 77 false 0, (h2.2 rfl).1,
    (h2.2 rfl).2 (fun e he => by simp [claimStateEmptyW, alookup] at he) 9⟩

/-- C5: a publish under a live claim moves the entry's previous value `A`
into the stale slot and installs `B` as current, so `getStale` returns `A`
while the current value is `B`; a non-persistent key published for the first
time this run has `getStale` return the just-published current value rather
than absent. -/
theorem C5_stale_tracking {V : Type} (s : EngineState V) (key : String) (c : Claim)
    (B : V) (hc : alookup key s.claims = some c) :
    (∀ e A, alookup key s.entries = some e → e.value = A → ∀ p t,
      getStale key (publish key c.ownerToken B p t s).2 = some A ∧
      (alookup key (publish key c.ownerToken B p t s).2.entries).map Entry.value
        = some B) ∧
    (alookup key s.entries = none →
      getStale key (publish key c.ownerToken B false 0 s).2 = some B ∧
      (alookup key (publish key c.ownerToken B false 0 s).2.entries).map Entry.value
        = some B) := by
  constructor
  · intro e A he hA p t
    constructor
    · simp [publish, hc, he, getStale, alookup_aset_self, hA]
    · simp [publish, hc, he, alookup_aset_self]
  · intro he
    constructor
    · simp [publish, hc, he, getStale, alookup_aset_self]
    · simp [publish, hc, he, alookup_aset_self]

/-- Concrete witness state: an expired persistent entry valued `41` for `"k"`
alongside the re-claim that will overwrite it. -/
def staleStateW : EngineState Nat :=
  { entries := [("k", Entry.mk 41 1 none true 1 (some 1000))],
    claims := [("k", Claim.mk 7 1500 [])], persisted := [],
    now := 2000, nextToken := 8, ownerTimeoutMs := 1000 }

/-- C5 witness: overwriting `41` with `42` leaves stale `41` and current
`42`; a first non-persistent publish of `9` has stale equal to current. -/
theorem C5_stale_tracking_witness :
    (getStale "k" (publish "k" 7 42 false 0 staleStateW).2 = some 41 ∧
     (alookup "k" (publish "k" 7 42 false 0 staleStateW).2.entries).map Entry.value
       = some 42) ∧
    (getStale "k" (publish "k" 0 9 false 0 claimStateW).2 = some 9 ∧
     (alookup "k" (publish "k" 0 9 false 0 claimStateW).2.entries).map Entry.value
       = some 9) :=
  ⟨(C5_stale_tracking staleStateW "k" (Claim.mk 7 1500 []) 42 rfl).1
      (Entry.mk 41 1 none true 1 (some 1000)) 41 rfl rfl false 0,
   (C5_stale_tracking claimStateW "k" (Claim.mk 0 0 [5, 6]) 9 rfl).2 rfl⟩

theorem alookup_none_of_not_mem {β : Type} (k : String) (l : List (String × β))
    (h : k ∉ l.map Prod.fst) : alookup k l = none := by
  induction l with
  | nil => rfl
  | cons p rest ih =>
    obtain ⟨k₀, v₀⟩ := p
    simp only [List.map_cons, List.mem_cons] at h
    push_neg at h
    have : k₀ ≠ k := fun e => h.1 e.symm
    simp [alookup, this, ih h.2]

theorem mem_keys_loadEntries {V : Type} (k : String) (now : Nat)
    (records : List (String × PersistedRecord V))
    (h : k ∈ (loadEntries now records).map Prod.fst) : k ∈ records.map Prod.fst := by
  induction records with
  | nil => simp [loadEntries] at h
  | cons p rest ih =>
    obtain ⟨k₀, r₀⟩ := p
    by_cases hexp : recordExpired r₀ now
    · simp only [loadEntries, hexp, if_true] at h
      exact List.mem_cons_of_mem _ (ih h)
    · simp only [loadEntries, hexp, if_false, List.map_cons] at h
      cases h with
      | head => simp
      | tail b h2 => exact List.mem_cons_of_mem _ (ih h2)

theorem alookup_loadEntries_expired {V : Type} (now : Nat)
    (records : List (String × PersistedRecord V)) (key : String) (r : PersistedRecord V)
    (hnd : (records.map Prod.fst).Nodup) (hr : alookup key records = some r)
    (hexp : recordExpired r now = true) :
    alookup key (loadEntries now records) = none := by
  induction records with
  | nil => cases hr
  | cons p rest ih =>
    obtain ⟨k₀, r₀⟩ := p
    simp only [List.map_cons, List.nodup_cons] at hnd
    by_cases hk : k₀ = key
    · subst hk
      rw [alookup, if_pos rfl] at hr
      cases hr
      simp only [loadEntries, hexp, if_true]
      refine alookup_none_of_not_mem _ _ (fun hmem => hnd.1 ?_)
      exact mem_keys_loadEntries _ now rest hmem
    · rw [alookup, if_neg hk] at hr
      by_cases h₀ : recordExpired r₀ now
      · simp only [loadEntries, h₀, if_true]
        exact ih hnd.2 hr
      · simp only [loadEntries, h₀, if_false, alookup, hk, if_false]
        exact ih hnd.2 hr

theorem alookup_loadEntries_live {V : Type} (now : Nat)
    (records : List (String × PersistedRecord V)) (key : String) (r : PersistedRecord V)
    (hr : alookup key records = some r) (hexp : recordExpired r now = false) :
    alookup key (loadEntries now records) = some (recordToEntry r) := by
  induction records with
  | nil => cases hr
  | cons p rest ih =>
    obtain ⟨k₀, r₀⟩ := p
    by_cases hk : k₀ = key
    · subst hk
      rw [alookup, if_pos rfl] at hr
      cases hr
      simp [loadEntries, hexp, alookup]
    · rw [alookup, if_neg hk] at hr
      by_cases h₀ : recordExpired r₀ now
      · simp only [loadEntries, h₀, if_true]
        exact ih hr
      · simp only [loadEntries, h₀, if_false, alookup, hk, if_false]
        exact ih hr

/-- C6: a persisted record with a finite TTL whose expiry has passed at
coordinator startup is discarded at load — the key's entry is absent, the
next request creates a fresh claim, and no value or stale value is ever
surfaced for it — while a record with `ttlSeconds = -1` is loaded and its
entry never expires. -/
theorem C6_startup_ttl {V : Type} (timeoutMs startNow : Nat)
    (records : List (String × PersistedRecord V)) (key : String)
    (r : PersistedRecord V) (caller : Nat) (u : Nat)
    (hr : alookup key records = some r) :
    ((records.map Prod.fst).Nodup → r.ttlSeconds ≠ -1 → r.expiresAt = some u →
      u ≤ startNow →
      alookup key (initState timeoutMs startNow records : EngineState V).entries = none ∧
      (request key caller (initState timeoutMs startNow records)).1 = Outcome.owner 0 ∧
      getStale key (initState timeoutMs startNow records : EngineState V) = none) ∧
    (r.ttlSeconds = -1 →
      recordExpired r startNow = false ∧
      alookup key (initState timeoutMs startNow records : EngineState V).entries
        = some (recordToEntry r) ∧
      (∀ n, (recordToEntry r).isValid n = true)) := by
  constructor
  · intro hnd hne hu hle
    have hexp : recordExpired r startNow = true := by
      simp [recordExpired, hne, hu, hle]
    have habsent : alookup key (loadEntries startNow records) = none :=
      alookup_loadEntries_expired startNow records key r hnd hr hexp
    refine ⟨habsent, ?_, ?_⟩
    · have hcl : alookup key (initState timeoutMs startNow records :
          EngineState V).claims = none := rfl
      simp [initState, request, habsent, requestClaim, alookup]
    · simp [getStale, initState, habsent]
  · intro hm1
    have hexp : recordExpired r startNow = false := by
      simp [recordExpired, hm1]
    refine ⟨hexp, ?_, ?_⟩
    · exact alookup_loadEntries_live startNow records key r hr hexp
    · intro n
      simp [recordToEntry, hm1, Entry.isValid]

/-- Concrete persisted records: `"old"` has a finite TTL already expired at
the startup instant `1000`; `"forever"` never expires. -/
def recordsW : List (String × PersistedRecord Nat) :=
  [("old", PersistedRecord.mk 7 3 60 (some 500)),
   ("forever", PersistedRecord.mk 8 1 (-1) none)]

/-- C6 witness: the expired record is absent after load and re-claimed; the
`ttl = -1` record is loaded and valid at an arbitrary later instant. -/
theorem C6_startup_ttl_witness :
    alookup "old" (initState 2000 1000 recordsW : EngineState Nat).entries = none ∧
    (request "old" 4 (initState 2000 1000 recordsW)).1 = Outcome.owner 0 ∧
    getStale "old" (initState 2000 1000 recordsW : EngineState Nat) = none ∧
    recordExpired (PersistedRecord.mk 8 1 (-1) none) 1000 = false ∧
    alookup "forever" (initState 2000 1000 recordsW : EngineState Nat).entries
      = some (recordToEntry (PersistedRecord.mk 8 1 (-1) none)) ∧
    (recordToEntry (PersistedRecord.mk 8 1 (-1) none) : Entry Nat).isValid 999999 = true := by
  have h1 := (C6_startup_ttl 2000 1000 recordsW "old"
    (PersistedRecord.mk 7 3 60 (some 500)) 4 500 rfl).1 (by decide) (by decide) rfl
    (by decide)
  have h2 := (C6_startup_ttl 2000 1000 recordsW "forever"
    (PersistedRecord.mk 8 1 (-1) none) 4 0 rfl).2 rfl
  exact ⟨h1.1, h1.2.1, h1.2.2, h2.1, h2.2.1, h2.2.2 999999⟩

end GlobalStorage
